import Mathlib

/-!
A verification development for the `Elorities` priority ranker
(`ranker.py`).  The program keeps, per *theme*, an item list and a ratings
table (two JSON files under a `themes` directory), updates Elo-style
ratings from pairwise comparison outcomes, and displays a ranking with a
proportional dash scale.

The embedding below follows the Python source statement by statement:

* a JSON ratings object is an insertion-ordered association list
  (`RatingsTable`), with `lookupKey` for `d[k]` / `k in d`, `dictSet`
  for `d[k] = v`, and `modifyEntry` for the in-place mutation
  `d[k].field = ...`;
* the filesystem is a `Store` holding the parsed contents of the
  `{theme}_items.json` and `{theme}_ratings.json` files, together with a
  log of every `save_ratings` call so that theorems can count writes;
* Python floats are real numbers, `math.pow(10, x)` is `Real.rpow`, and
  `int(x)` on a non-negative float is `Int.floor`;
* `ratings[winner]` on a missing key raises `KeyError`, so
  `update_ratings` is `Option`-valued;
* `list.sort(key=..., reverse=True)` is CPython's stable sort, embedded
  as `List.insertionSort` over the decreasing-rating relation (a stable
  sort's output is determined by the relation, so any stable sort is an
  extensionally faithful model).
-/

namespace Elorities

/-- One rating record, as created by `initialize_ratings` (ranker.py,
lines 61-69): an Elo `rating`, the `plays`/`wins`/`losses` counters, the
`date_added` timestamp (an opaque string here), and the extreme
single-game deltas `biggest_win` and `lowest_loss`. -/
structure RatingRecord where
  rating : ℝ
  plays : ℕ
  wins : ℕ
  losses : ℕ
  date_added : String
  biggest_win : ℝ
  lowest_loss : ℝ

/-- A ratings table: the JSON object mapping item strings to rating
records, modelled as an insertion-ordered association list (Python dicts
preserve insertion order). -/
abbrev RatingsTable := List (String × RatingRecord)

/-- Python dict lookup: `d[k]` as an `Option` (also `k in d`, via
`Option.isSome`). -/
def lookupKey {α : Type} : List (String × α) → String → Option α
  | [], _ => none
  | p :: rest, k => if p.1 = k then some p.2 else lookupKey rest k

/-- Python dict assignment `d[k] = v`: replace the value at an existing
key in place (keeping its position), or append a new binding at the
end. -/
def dictSet {α : Type} : List (String × α) → String → α → List (String × α)
  | [], k, v => [(k, v)]
  | p :: rest, k, v => if p.1 = k then (k, v) :: rest else p :: dictSet rest k v

/-- Python in-place mutation of one entry, `d[k].field = ...`: apply `f`
to the record stored at key `k`, leave every other entry alone. -/
def modifyEntry {α : Type} : List (String × α) → String → (α → α) → List (String × α)
  | [], _, _ => []
  | p :: rest, k, f => (if p.1 = k then (p.1, f p.2) else p) :: modifyEntry rest k f

/-- The persistence store (the `themes` directory): `itemsFiles` and
`ratingsFiles` hold the parsed contents of `{theme}_items.json` and
`{theme}_ratings.json` per theme; `ratingsWrites` logs every
`save_ratings` call (theme and the full table written), so that theorems
can speak about how many writes an operation performed. -/
structure Store where
  itemsFiles : List (String × List String)
  ratingsFiles : List (String × RatingsTable)
  ratingsWrites : List (String × RatingsTable)

/-- `load_items` (lines 26-32): the items file contents, `[]` when the
file is absent. -/
def load_items (s : Store) (theme : String) : List String :=
  (lookupKey s.itemsFiles theme).getD []

/-- `save_items` (lines 34-38): overwrite the items file. -/
def save_items (s : Store) (theme : String) (items : List String) : Store :=
  { s with itemsFiles := dictSet s.itemsFiles theme items }

/-- `load_ratings` (lines 40-46): the ratings file contents, `{}` when
the file is absent. -/
def load_ratings (s : Store) (theme : String) : RatingsTable :=
  (lookupKey s.ratingsFiles theme).getD []

/-- `save_ratings` (lines 48-52): overwrite the ratings file; the write
is also appended to the store's write log. -/
def save_ratings (s : Store) (theme : String) (r : RatingsTable) : Store :=
  { s with ratingsFiles := dictSet s.ratingsFiles theme r,
           ratingsWrites := s.ratingsWrites ++ [(theme, r)] }

/-- The fresh record `initialize_ratings` creates for an item that has no
rating record yet (lines 61-69); `now` stands for
`datetime.now().isoformat()`. -/
def freshRecord (now : String) : RatingRecord :=
  { rating := 1000, plays := 0, wins := 0, losses := 0,
    date_added := now, biggest_win := 0, lowest_loss := 0 }

/-- One iteration of the `for item in items` loop of
`initialize_ratings` (lines 59-70): the accumulator is the ratings table
together with the `updated` flag. -/
def initStep (now : String) (acc : RatingsTable × Bool) (item : String) :
    RatingsTable × Bool :=
  if (lookupKey acc.1 item).isSome then acc
  else (dictSet acc.1 item (freshRecord now), true)

/-- `initialize_ratings` (lines 54-74): add a fresh record for every item
not yet in the ratings table, save the table only when something was
added, and return the table. -/
def initialize_ratings (s : Store) (theme : String) (items : List String)
    (now : String) : Store × RatingsTable :=
  let res := items.foldl (initStep now) (load_ratings s theme, false)
  (if res.2 then save_ratings s theme res.1 else s, res.1)

/-- `calculate_elo_change` (lines 76-84): the expected scores and the two
rating deltas.  Every call site passes `k = 32` (the Python default). -/
noncomputable def calculate_elo_change (winner_rating loser_rating k : ℝ) : ℝ × ℝ :=
  let expected_winner := 1 / (1 + (10 : ℝ) ^ ((loser_rating - winner_rating) / 400))
  let expected_loser := 1 / (1 + (10 : ℝ) ^ ((winner_rating - loser_rating) / 400))
  (k * (1 - expected_winner), k * (0 - expected_loser))

/-- `update_ratings` (lines 86-111): the Elo update after a match.
`ratings[winner]` / `ratings[loser]` raise `KeyError` on a missing key,
hence the `Option`; otherwise the function performs the Python field
updates statement by statement and saves the full table once. -/
noncomputable def update_ratings (s : Store) (theme winner loser : String) :
    Option Store :=
  let ratings := load_ratings s theme
  match lookupKey ratings winner, lookupKey ratings loser with
  | some wrec, some lrec =>
    let ch := calculate_elo_change wrec.rating lrec.rating 32
    let r1 := modifyEntry ratings winner (fun rec => { rec with rating := rec.rating + ch.1 })
    let r2 := modifyEntry r1 loser (fun rec => { rec with rating := rec.rating + ch.2 })
    let r3 := modifyEntry r2 winner (fun rec => { rec with plays := rec.plays + 1 })
    let r4 := modifyEntry r3 winner (fun rec => { rec with wins := rec.wins + 1 })
    let r5 := modifyEntry r4 loser (fun rec => { rec with plays := rec.plays + 1 })
    let r6 := modifyEntry r5 loser (fun rec => { rec with losses := rec.losses + 1 })
    let r7 := modifyEntry r6 winner (fun rec =>
      if rec.biggest_win < ch.1 then { rec with biggest_win := ch.1 } else rec)
    let r8 := modifyEntry r7 loser (fun rec =>
      if rec.lowest_loss < |ch.2| then { rec with lowest_loss := |ch.2| } else rec)
    some (save_ratings s theme r8)
  | _, _ => none

/-- A sequence of recorded outcomes, each `(winner, loser)`, applied in
order through `update_ratings`. -/
noncomputable def run_outcomes (theme : String) (s : Store) :
    List (String × String) → Option Store
  | [] => some s
  | (w, l) :: rest =>
    match update_ratings s theme w l with
    | some s' => run_outcomes theme s' rest
    | none => none

/-- The comparison behind `sorted_items.sort(key=lambda x: x[1],
reverse=True)` (line 221): `a` may precede `b` iff `b`'s rating is at
most `a`'s. -/
def rankGE (a b : String × ℝ) : Prop := b.2 ≤ a.2

noncomputable instance : DecidableRel rankGE :=
  fun a b => inferInstanceAs (Decidable (b.2 ≤ a.2))

instance : IsTotal (String × ℝ) rankGE := ⟨fun a b => le_total b.2 a.2⟩

instance : IsTrans (String × ℝ) rankGE := ⟨fun _ _ _ h1 h2 => le_trans h2 h1⟩

/-- The `(item, rating)` pairs `view_rankings` builds before sorting
(lines 214-219): an item's stored rating, or `1000` when the item has no
rating record. -/
def ratedItems (items : List String) (ratings : RatingsTable) : List (String × ℝ) :=
  items.map (fun item =>
    match lookupKey ratings item with
    | some rec => (item, rec.rating)
    | none => (item, 1000))

/-- The `sorted_items` list of `view_rankings` (line 221): CPython's sort
is stable, so the model is the stable insertion sort over the
decreasing-rating relation. -/
noncomputable def sorted_items (items : List String) (ratings : RatingsTable) :
    List (String × ℝ) :=
  List.insertionSort rankGE (ratedItems items ratings)

/-- Python `int(x)` on a float: truncation toward zero. -/
noncomputable def pyInt (x : ℝ) : ℤ := if 0 ≤ x then ⌊x⌋ else ⌈x⌉

/-- The dash count of one displayed line (lines 233-237). -/
noncomputable def dash_count (min_rating rating_range rating : ℝ) : ℤ :=
  if 0 < rating_range then pyInt (1 + 49 * (rating - min_rating) / rating_range)
  else 50

/-- `view_rankings` (lines 202-249), as the displayed data: the sorted
sequence of `(item, rating, dash count)`.  `max_rating` is the first
sorted entry's rating, `min_rating` the last one's (the first again for a
single entry, line 229), and `rating_range` falls back to `1` when the
two coincide (line 230). -/
noncomputable def view_rankings (items : List String) (ratings : RatingsTable) :
    List (String × ℝ × ℤ) :=
  match sorted_items items ratings with
  | [] => []
  | first :: rest =>
    let max_rating := first.2
    let min_rating := (rest.getLastD first).2
    let rating_range := if max_rating ≠ min_rating then max_rating - min_rating else 1
    (first :: rest).map (fun p => (p.1, p.2, dash_count min_rating rating_range p.2))

/-- `view_rankings` at the store level: the Python function only ever
reads (`load_items`, `load_ratings`) and never calls `save_items` or
`save_ratings`, so its store component is the input store. -/
noncomputable def view_rankings_io (s : Store) (theme : String) :
    Store × List (String × ℝ × ℤ) :=
  (s, view_rankings (load_items s theme) (load_ratings s theme))

/-- An observable state of a persisted file: `absent`, `truncated` (a
zero-length file), or `written doc` (a fully written document). -/
inductive FileState (α : Type) where
  | absent : FileState α
  | truncated : FileState α
  | written : α → FileState α
  deriving DecidableEq

/-- The observable file states during `save_items` (lines 34-38; and
identically `save_ratings`, lines 48-52), one entry after each primitive
filesystem effect: `open(items_file, "w")` truncates the file in place,
then `json.dump(items, f)` writes the document.  There is no
write-to-temp-then-rename in the source. -/
def save_items_trace {α : Type} (items : α) : List (FileState α) :=
  [FileState.truncated, FileState.written items]

/-- The atomicity property the specification claims of `save_items`: at
every instant during the save, a reader (or an interruption) sees either
the old file contents or the fully written new document, never a partial
state. -/
def save_atomic {α : Type} (old : FileState α) (items : α) : Prop :=
  ∀ st ∈ save_items_trace items, st = old ∨ st = FileState.written items

/-- The per-record bookkeeping invariant: every game is a win or a
loss. -/
def playsInvariant (t : RatingsTable) : Prop :=
  ∀ k rec, lookupKey t k = some rec → rec.plays = rec.wins + rec.losses

/-- The winner's record after `update_ratings`, as a function of its old
record and the winner delta. -/
def winnerUpdated (rec : RatingRecord) (delta : ℝ) : RatingRecord :=
  { rec with
    rating := rec.rating + delta
    plays := rec.plays + 1
    wins := rec.wins + 1
    biggest_win := max rec.biggest_win delta }

/-- The loser's record after `update_ratings`, as a function of its old
record and the loser delta. -/
def loserUpdated (rec : RatingRecord) (delta : ℝ) : RatingRecord :=
  { rec with
    rating := rec.rating + delta
    plays := rec.plays + 1
    losses := rec.losses + 1
    lowest_loss := max rec.lowest_loss |delta| }

/-! ## Dictionary lemmas -/

theorem lookupKey_dictSet_self {α : Type} (t : List (String × α)) (k : String) (v : α) :
    lookupKey (dictSet t k v) k = some v := by
  induction t with
  | nil => simp [dictSet, lookupKey]
  | cons p rest ih =>
    by_cases h : p.1 = k
    · simp [dictSet, lookupKey, h]
    · simp [dictSet, lookupKey, h, ih]

theorem lookupKey_dictSet_ne {α : Type} (t : List (String × α)) (k k' : String) (v : α)
    (h : k' ≠ k) : lookupKey (dictSet t k v) k' = lookupKey t k' := by
  induction t with
  | nil =>
    have hkk : ¬k = k' := fun hh => h hh.symm
    simp [dictSet, lookupKey, hkk]
  | cons p rest ih =>
    by_cases hp : p.1 = k
    · subst hp
      have hkk : ¬p.1 = k' := fun hh => h hh.symm
      simp [dictSet, lookupKey, hkk]
    · simp only [dictSet, hp, if_false, lookupKey]
      by_cases hk' : p.1 = k' <;> simp [hk', ih]

theorem lookupKey_modifyEntry {α : Type} (t : List (String × α)) (k0 k : String)
    (f : α → α) :
    lookupKey (modifyEntry t k0 f) k =
      if k0 = k then (lookupKey t k).map f else lookupKey t k := by
  induction t with
  | nil => simp [modifyEntry, lookupKey]
  | cons p rest ih =>
    by_cases hp0 : p.1 = k0
    · by_cases hpk : p.1 = k
      · have : k0 = k := hp0 ▸ hpk
        simp [modifyEntry, lookupKey, hp0, hpk, this]
      · have hne : k0 ≠ k := fun h => hpk (hp0.trans h)
        simp [modifyEntry, lookupKey, hp0, hpk, hne, ih]
    · by_cases hpk : p.1 = k
      · have hne : k0 ≠ k := fun h => hp0 (hpk.trans h.symm)
        have hne' : ¬k = k0 := fun h => hne h.symm
        simp [modifyEntry, lookupKey, hp0, hpk, hne, hne']
      · simp [modifyEntry, lookupKey, hp0, hpk, ih]

/-! ## The `initialize_ratings` loop -/

theorem initLoop_lookup (now : String) (items : List String) (t : RatingsTable)
    (b : Bool) (k : String) :
    lookupKey (items.foldl (initStep now) (t, b)).1 k =
      if (lookupKey t k).isSome then lookupKey t k
      else if k ∈ items then some (freshRecord now) else none := by
  induction items generalizing t b with
  | nil =>
    by_cases h : (lookupKey t k).isSome
    · simp [h]
    · simp only [Option.not_isSome_iff_eq_none] at h
      simp [h]
  | cons i items ih =>
    simp only [List.foldl_cons]
    by_cases hi : (lookupKey t i).isSome
    · rw [initStep, if_pos hi, ih]
      by_cases hk : (lookupKey t k).isSome
      · simp [hk]
      · by_cases hki : k = i
        · exact absurd (hki ▸ hi) hk
        · simp [hk, List.mem_cons, hki]
    · rw [initStep, if_neg hi]
      simp only [ih]
      by_cases hki : k = i
      · subst hki
        simp only [Option.not_isSome_iff_eq_none] at hi
        simp [lookupKey_dictSet_self, hi, List.mem_cons]
      · rw [lookupKey_dictSet_ne _ _ _ _ hki]
        by_cases hk : (lookupKey t k).isSome
        · simp [hk]
        · simp [hk, List.mem_cons, hki]

theorem initLoop_flag (now : String) (items : List String) (t : RatingsTable) (b : Bool) :
    (items.foldl (initStep now) (t, b)).2 =
      (b || items.any (fun i => (lookupKey t i).isNone)) := by
  induction items generalizing t b with
  | nil => simp
  | cons i items ih =>
    simp only [List.foldl_cons, List.any_cons]
    by_cases hi : (lookupKey t i).isSome
    · rw [initStep, if_pos hi, ih]
      have : (lookupKey t i).isNone = false := by
        simp [Option.isNone_iff_eq_none]
        exact Option.isSome_iff_exists.mp hi |>.elim fun v hv => by simp [hv]
      simp [this]
    · rw [initStep, if_neg hi, ih]
      have hnone : (lookupKey t i).isNone = true := by
        simp only [Option.not_isSome_iff_eq_none] at hi
        simp [hi]
      simp [hnone]

theorem initLoop_noop (now : String) (items : List String) (t : RatingsTable) (b : Bool)
    (h : ∀ i ∈ items, (lookupKey t i).isSome) :
    items.foldl (initStep now) (t, b) = (t, b) := by
  induction items with
  | nil => rfl
  | cons i items ih =>
    simp only [List.foldl_cons]
    rw [initStep, if_pos (h i (List.mem_cons_self i items))]
    exact ih fun j hj => h j (List.mem_cons_of_mem i hj)

/-! ## C4: `initialize_ratings` -/

/-- C4: `initialize_ratings theme items` creates, for every item in
`items` lacking a rating record, a record with `rating = 1000`,
`plays = wins = losses = 0`, `biggest_win = lowest_loss = 0` and the
`date_added` timestamp; it never modifies existing records and touches no
other key; it persists (a single `save_ratings` write) exactly when at
least one record was added; and it is idempotent: a second call with the
same item set returns the identical store and table, in particular it
leaves the rating table unchanged and performs no write. -/
theorem initialize_ratings_spec (s : Store) (theme : String) (items : List String)
    (now : String) :
    (∀ k ∈ items, lookupKey (load_ratings s theme) k = none →
      lookupKey (initialize_ratings s theme items now).2 k =
        some { rating := 1000, plays := 0, wins := 0, losses := 0,
               date_added := now, biggest_win := 0, lowest_loss := 0 }) ∧
    (∀ k rec, lookupKey (load_ratings s theme) k = some rec →
      lookupKey (initialize_ratings s theme items now).2 k = some rec) ∧
    (∀ k, k ∉ items →
      lookupKey (initialize_ratings s theme items now).2 k =
        lookupKey (load_ratings s theme) k) ∧
    (initialize_ratings s theme items now).1.ratingsWrites =
      s.ratingsWrites ++
        (if items.any (fun i => (lookupKey (load_ratings s theme) i).isNone)
         then [(theme, (initialize_ratings s theme items now).2)] else []) ∧
    (items.any (fun i => (lookupKey (load_ratings s theme) i).isNone) = false →
      (initialize_ratings s theme items now).1 = s) ∧
    (∀ now', initialize_ratings (initialize_ratings s theme items now).1 theme items now' =
      initialize_ratings s theme items now) := by
  classical
  set t0 := load_ratings s theme with ht0
  set res := items.foldl (initStep now) (t0, false) with hresdef
  have hinit : initialize_ratings s theme items now =
      (if res.2 then save_ratings s theme res.1 else s, res.1) := rfl
  have hlook : ∀ k, lookupKey res.1 k =
      if (lookupKey t0 k).isSome then lookupKey t0 k
      else if k ∈ items then some (freshRecord now) else none :=
    fun k => initLoop_lookup now items t0 false k
  have hflag : res.2 = items.any (fun i => (lookupKey t0 i).isNone) := by
    rw [hresdef, initLoop_flag]
    simp
  have hmem : ∀ k ∈ items, (lookupKey res.1 k).isSome := by
    intro k hk
    rw [hlook k]
    by_cases h : (lookupKey t0 k).isSome
    · simp [h]
    · simp [h, hk]
  have hload1 : load_ratings (if res.2 then save_ratings s theme res.1 else s) theme
      = res.1 := by
    by_cases h2 : res.2
    · simp only [h2, if_true, load_ratings, save_ratings, lookupKey_dictSet_self,
        Option.getD_some]
    · have hall : ∀ i ∈ items, (lookupKey t0 i).isSome := by
        rw [hflag] at h2
        intro i hi
        by_contra hns
        simp only [Option.not_isSome_iff_eq_none] at hns
        exact h2 (List.any_eq_true.mpr ⟨i, hi, by simp [hns]⟩)
      have hnoop := initLoop_noop now items t0 false hall
      have hres1 : res.1 = t0 := by rw [hresdef, hnoop]
      simp only [h2, if_false, hres1, ht0]
      simp [Bool.not_eq_true] at h2
      simp [h2]
  refine ⟨?_, ?_, ?_, ?_, ?_, ?_⟩
  · intro k hk hnone
    rw [hinit]
    simp only
    rw [hlook k]
    simp [hnone, hk, freshRecord]
  · intro k rec hrec
    rw [hinit]
    simp only
    rw [hlook k, hrec]
    simp
  · intro k hk
    rw [hinit]
    simp only
    rw [hlook k]
    by_cases h : (lookupKey t0 k).isSome
    · simp [h]
    · simp only [Option.not_isSome_iff_eq_none] at h
      simp [h, hk]
  · rw [hinit]
    simp only
    rw [← hflag]
    by_cases h2 : res.2
    · simp [h2, save_ratings]
    · simp only [Bool.not_eq_true] at h2
      simp [h2]
  · intro hnone
    rw [hinit]
    simp only
    rw [← hflag] at hnone
    simp [hnone]
  · intro now'
    rw [hinit]
    have hsecond : initialize_ratings (if res.2 then save_ratings s theme res.1 else s)
        theme items now' = ((if res.2 then save_ratings s theme res.1 else s), res.1) := by
      simp only [initialize_ratings, hload1]
      rw [initLoop_noop now' items res.1 false hmem]
      simp
    rw [hsecond]

/-- Witness for C4 at a concrete empty store: initializing the single
item `a` creates its fresh default record. -/
theorem initialize_ratings_spec_witness :
    lookupKey (initialize_ratings ⟨[], [], []⟩ "t" ["a"] "d").2 "a" =
      some { rating := 1000, plays := 0, wins := 0, losses := 0,
             date_added := "d", biggest_win := 0, lowest_loss := 0 } :=
  (initialize_ratings_spec ⟨[], [], []⟩ "t" ["a"] "d").1 "a" (by simp) rfl

/-! ## C8: missing-key failure in `update_ratings` -/

/-- C8: `update_ratings` raises a missing-key error (returns `none`)
exactly when the winner or the loser has no rating record in the theme's
table, and succeeds whenever both records exist. -/
theorem update_ratings_key_error (s : Store) (theme winner loser : String) :
    (update_ratings s theme winner loser = none ↔
      lookupKey (load_ratings s theme) winner = none ∨
      lookupKey (load_ratings s theme) loser = none) ∧
    (∀ wrec lrec, lookupKey (load_ratings s theme) winner = some wrec →
      lookupKey (load_ratings s theme) loser = some lrec →
      ∃ s', update_ratings s theme winner loser = some s') := by
  constructor
  · rcases hw : lookupKey (load_ratings s theme) winner with _ | wrec <;>
      rcases hl : lookupKey (load_ratings s theme) loser with _ | lrec <;>
        simp [update_ratings, hw, hl]
  · intro wrec lrec hw hl
    simp only [update_ratings, hw, hl]
    exact ⟨_, rfl⟩

/-! ## C3: the Elo delta formulas -/

/-- C3: for every pair of ratings, `calculate_elo_change` (with `k = 32`)
returns a strictly positive winner delta and a strictly negative loser
delta, and the two deltas sum to exactly `0` in real arithmetic (the two
expected scores sum to `1`). -/
theorem calculate_elo_change_signs (A B : ℝ) :
    0 < (calculate_elo_change A B 32).1 ∧
    (calculate_elo_change A B 32).2 < 0 ∧
    (calculate_elo_change A B 32).1 + (calculate_elo_change A B 32).2 = 0 := by
  have hp : (0 : ℝ) < (10 : ℝ) ^ ((B - A) / 400) :=
    Real.rpow_pos_of_pos (by norm_num) _
  have hq : (0 : ℝ) < (10 : ℝ) ^ ((A - B) / 400) :=
    Real.rpow_pos_of_pos (by norm_num) _
  have hqp : (10 : ℝ) ^ ((A - B) / 400) = ((10 : ℝ) ^ ((B - A) / 400))⁻¹ := by
    rw [← Real.rpow_neg (by norm_num : (0:ℝ) ≤ 10)]
    ring_nf
  set p : ℝ := (10 : ℝ) ^ ((B - A) / 400) with hpdef
  have h1p : (0 : ℝ) < 1 + p := by linarith
  have h1q : (0 : ℝ) < 1 + p⁻¹ := by positivity
  have hew : (calculate_elo_change A B 32).1 = 32 * (1 - 1 / (1 + p)) := rfl
  have hel : (calculate_elo_change A B 32).2 = 32 * (0 - 1 / (1 + p⁻¹)) := by
    show 32 * (0 - 1 / (1 + (10 : ℝ) ^ ((A - B) / 400))) = _
    rw [hqp]
  refine ⟨?_, ?_, ?_⟩
  · rw [hew]
    have : 1 / (1 + p) < 1 := by
      rw [div_lt_one h1p]
      linarith
    nlinarith
  · rw [hel]
    have : 0 < 1 / (1 + p⁻¹) := by positivity
    nlinarith
  · rw [hew, hel]
    have hpne : p ≠ 0 := ne_of_gt (by positivity)
    field_simp
    ring

/-- The concrete Elo delta at equal ratings `1000` vs `1000`: the
exponent is `0`, both expected scores are `1/2`, and the deltas are
exactly `16` and `-16`. -/
theorem elo_change_equal : calculate_elo_change 1000 1000 32 = (16, -16) := by
  have h0 : ((1000 : ℝ) - 1000) / 400 = 0 := by norm_num
  simp only [calculate_elo_change, h0, Real.rpow_zero]
  norm_num

/-! ## C1: the shape of one `update_ratings` call -/

theorem if_lt_eq_max (a b : ℝ) : (if a < b then b else a) = max a b := by
  rcases le_or_lt b a with h | h
  · rw [if_neg (not_lt.mpr h), max_eq_left h]
  · rw [if_pos h, max_eq_right h.le]

/-- The table `update_ratings` saves: the winner's and loser's records
are rewritten by `winnerUpdated` / `loserUpdated` with the deltas of
`calculate_elo_change` at the old ratings, every other entry is left
alone. -/
theorem update_ratings_eq (s : Store) (theme winner loser : String)
    (wrec lrec : RatingRecord)
    (hw : lookupKey (load_ratings s theme) winner = some wrec)
    (hl : lookupKey (load_ratings s theme) loser = some lrec)
    (hne : winner ≠ loser) :
    ∃ t' : RatingsTable,
      update_ratings s theme winner loser = some (save_ratings s theme t') ∧
      lookupKey t' winner =
        some (winnerUpdated wrec (calculate_elo_change wrec.rating lrec.rating 32).1) ∧
      lookupKey t' loser =
        some (loserUpdated lrec (calculate_elo_change wrec.rating lrec.rating 32).2) ∧
      (∀ k, k ≠ winner → k ≠ loser →
        lookupKey t' k = lookupKey (load_ratings s theme) k) := by
  have hlw : ¬(loser = winner) := fun h => hne h.symm
  have hwl : ¬(winner = loser) := hne
  simp only [update_ratings, hw, hl]
  refine ⟨_, rfl, ?_, ?_, ?_⟩
  · simp only [lookupKey_modifyEntry, hlw, if_false, if_true, if_pos rfl, hw,
      Option.map_some]
    by_cases hbw : wrec.biggest_win < (calculate_elo_change wrec.rating lrec.rating 32).1
    · simp [hbw, winnerUpdated, max_eq_right hbw.le]
    · simp [hbw, winnerUpdated, max_eq_left (not_lt.mp hbw)]
  · simp only [lookupKey_modifyEntry, hwl, if_false, if_true, if_pos rfl, hl,
      Option.map_some]
    by_cases hll : lrec.lowest_loss < |(calculate_elo_change wrec.rating lrec.rating 32).2|
    · simp [hll, loserUpdated, max_eq_right hll.le]
    · simp [hll, loserUpdated, max_eq_left (not_lt.mp hll)]
  · intro k hkw hkl
    have h1 : ¬(winner = k) := fun h => hkw h.symm
    have h2 : ¬(loser = k) := fun h => hkl h.symm
    simp only [lookupKey_modifyEntry, h1, h2, if_false]

/-- C1: for distinct `winner` and `loser` that both have rating records,
`update_ratings` computes the deltas with `calculate_elo_change` at the
current ratings and stores exactly: winner rating `+= winnerDelta`, loser
rating `+= loserDelta`, both `plays + 1`, winner `wins + 1`, loser
`losses + 1`, winner `biggest_win = max biggest_win winnerDelta`, loser
`lowest_loss = max lowest_loss |loserDelta|`; every other record is
unchanged, and the full table is persisted in a single `save_ratings`
write. -/
theorem update_ratings_spec (s : Store) (theme winner loser : String)
    (wrec lrec : RatingRecord)
    (hw : lookupKey (load_ratings s theme) winner = some wrec)
    (hl : lookupKey (load_ratings s theme) loser = some lrec)
    (hne : winner ≠ loser) :
    ∃ s' : Store, update_ratings s theme winner loser = some s' ∧
      lookupKey (load_ratings s' theme) winner =
        some { wrec with
          rating := wrec.rating + (calculate_elo_change wrec.rating lrec.rating 32).1
          plays := wrec.plays + 1
          wins := wrec.wins + 1
          biggest_win :=
            max wrec.biggest_win (calculate_elo_change wrec.rating lrec.rating 32).1 } ∧
      lookupKey (load_ratings s' theme) loser =
        some { lrec with
          rating := lrec.rating + (calculate_elo_change wrec.rating lrec.rating 32).2
          plays := lrec.plays + 1
          losses := lrec.losses + 1
          lowest_loss :=
            max lrec.lowest_loss |(calculate_elo_change wrec.rating lrec.rating 32).2| } ∧
      (∀ k, k ≠ winner → k ≠ loser →
        lookupKey (load_ratings s' theme) k = lookupKey (load_ratings s theme) k) ∧
      s'.ratingsWrites = s.ratingsWrites ++ [(theme, load_ratings s' theme)] ∧
      s'.itemsFiles = s.itemsFiles := by
  obtain ⟨t', heq, hw', hl', hother⟩ := update_ratings_eq s theme winner loser wrec lrec hw hl hne
  have hload : load_ratings (save_ratings s theme t') theme = t' := by
    simp [load_ratings, save_ratings, lookupKey_dictSet_self]
  refine ⟨save_ratings s theme t', heq, ?_, ?_, ?_, ?_, rfl⟩
  · rw [hload]
    exact hw'
  · rw [hload]
    exact hl'
  · intro k hkw hkl
    rw [hload]
    exact hother k hkw hkl
  · rw [hload]
    rfl

/-- A tiny concrete store for witnesses and the worked example: one theme
`"t"` with items `X` and `Y`, both freshly initialized (rating 1000). -/
def demoStore : Store :=
  { itemsFiles := [("t", ["X", "Y"])]
    ratingsFiles := [("t", [("X", freshRecord "d"), ("Y", freshRecord "d")])]
    ratingsWrites := [] }

/-- Witness for C1: at `demoStore`, the items `X` and `Y` are distinct
and both have records, and `update_ratings` succeeds on them. -/
theorem update_ratings_spec_witness :
    ("X" : String) ≠ "Y" ∧
    lookupKey (load_ratings demoStore "t") "X" = some (freshRecord "d") ∧
    ∃ s' : Store, update_ratings demoStore "t" "X" "Y" = some s' := by
  have hw : lookupKey (load_ratings demoStore "t") "X" = some (freshRecord "d") := by
    simp [demoStore, load_ratings, lookupKey]
  have hl : lookupKey (load_ratings demoStore "t") "Y" = some (freshRecord "d") := by
    simp [demoStore, load_ratings, lookupKey]
  refine ⟨by decide, hw, ?_⟩
  obtain ⟨s', hs', -⟩ :=
    update_ratings_spec demoStore "t" "X" "Y" (freshRecord "d") (freshRecord "d")
      hw hl (by decide)
  exact ⟨s', hs'⟩

/-! ## C2: the worked example at equal ratings -/

/-- The ratings table after recording that `X` beats `Y` in `demoStore`:
`X` gains exactly 16 points, `Y` loses exactly 16. -/
def demoTable : RatingsTable :=
  [("X", { rating := 1016, plays := 1, wins := 1, losses := 0,
           date_added := "d", biggest_win := 16, lowest_loss := 0 }),
   ("Y", { rating := 984, plays := 1, wins := 0, losses := 1,
           date_added := "d", biggest_win := 0, lowest_loss := 16 })]

/-- Recording `X` beats `Y` in `demoStore` evaluates to exactly the
`demoTable` write. -/
theorem update_demoStore :
    update_ratings demoStore "t" "X" "Y" = some (save_ratings demoStore "t" demoTable) := by
  have hw : lookupKey (load_ratings demoStore "t") "X" = some (freshRecord "d") := by
    simp [demoStore, load_ratings, lookupKey]
  have hl : lookupKey (load_ratings demoStore "t") "Y" = some (freshRecord "d") := by
    simp [demoStore, load_ratings, lookupKey]
  simp only [update_ratings, hw, hl, freshRecord, elo_change_equal]
  have habs : |(-16 : ℝ)| = 16 := by norm_num
  simp [demoStore, load_ratings, lookupKey, modifyEntry, demoTable, freshRecord, habs]
  norm_num

/-- C2: starting from ratings `{X: 1000, Y: 1000}`, recording the outcome
that `X` beats `Y` stores `X.rating = 1000 + 16` and
`Y.rating = 1000 - 16` exactly (k = 32, both expected scores `1/2`). -/
theorem equal_ratings_outcome :
    ∃ s' : Store, update_ratings demoStore "t" "X" "Y" = some s' ∧
      (lookupKey (load_ratings s' "t") "X").map RatingRecord.rating =
        some (1000 + 16) ∧
      (lookupKey (load_ratings s' "t") "Y").map RatingRecord.rating =
        some (1000 - 16) := by
  refine ⟨save_ratings demoStore "t" demoTable, update_demoStore, ?_, ?_⟩ <;>
    · simp [load_ratings, save_ratings, lookupKey_dictSet_self, demoTable, lookupKey]
      norm_num

/-! ## C7: `biggest_win` and `lowest_loss` never decrease -/

theorem load_save_ratings (s : Store) (theme : String) (t : RatingsTable) :
    load_ratings (save_ratings s theme t) theme = t := by
  simp [load_ratings, save_ratings, lookupKey_dictSet_self]

theorem lookup_mono_of_modify (k0 : String) {t : RatingsTable}
    {f : RatingRecord → RatingRecord}
    (hf : ∀ r, r.biggest_win ≤ (f r).biggest_win ∧ r.lowest_loss ≤ (f r).lowest_loss)
    {k : String} {rec : RatingRecord} (h : lookupKey t k = some rec) :
    ∃ rec', lookupKey (modifyEntry t k0 f) k = some rec' ∧
      rec.biggest_win ≤ rec'.biggest_win ∧ rec.lowest_loss ≤ rec'.lowest_loss := by
  rw [lookupKey_modifyEntry]
  by_cases hk : k0 = k
  · rw [if_pos hk, h]
    exact ⟨f rec, rfl, (hf rec).1, (hf rec).2⟩
  · rw [if_neg hk]
    exact ⟨rec, h, le_refl _, le_refl _⟩

theorem exists_mono_modify (t : RatingsTable) (k0 : String)
    (f : RatingRecord → RatingRecord)
    (hf : ∀ r, r.biggest_win ≤ (f r).biggest_win ∧ r.lowest_loss ≤ (f r).lowest_loss)
    (k : String) (rec0 : RatingRecord)
    (h : ∃ rec, lookupKey t k = some rec ∧
      rec0.biggest_win ≤ rec.biggest_win ∧ rec0.lowest_loss ≤ rec.lowest_loss) :
    ∃ rec, lookupKey (modifyEntry t k0 f) k = some rec ∧
      rec0.biggest_win ≤ rec.biggest_win ∧ rec0.lowest_loss ≤ rec.lowest_loss := by
  obtain ⟨rec, hrec, hb, hl⟩ := h
  obtain ⟨rec', h', hb', hl'⟩ := lookup_mono_of_modify k0 hf hrec
  exact ⟨rec', h', le_trans hb hb', le_trans hl hl'⟩

theorem condUpdate_bw_mono (c : ℝ) (r : RatingRecord) :
    r.biggest_win ≤
      (if r.biggest_win < c then { r with biggest_win := c } else r).biggest_win ∧
    r.lowest_loss ≤
      (if r.biggest_win < c then { r with biggest_win := c } else r).lowest_loss := by
  by_cases hc : r.biggest_win < c <;> simp [hc]
  exact hc.le

theorem condUpdate_ll_mono (c : ℝ) (r : RatingRecord) :
    r.biggest_win ≤
      (if r.lowest_loss < c then { r with lowest_loss := c } else r).biggest_win ∧
    r.lowest_loss ≤
      (if r.lowest_loss < c then { r with lowest_loss := c } else r).lowest_loss := by
  by_cases hc : r.lowest_loss < c <;> simp [hc]
  exact hc.le

/-- A single `update_ratings` call never decreases any record's
`biggest_win` or `lowest_loss`. -/
theorem update_ratings_mono (s : Store) (theme w l : String) (s' : Store)
    (h : update_ratings s theme w l = some s')
    (k : String) (rec : RatingRecord)
    (hk : lookupKey (load_ratings s theme) k = some rec) :
    ∃ rec', lookupKey (load_ratings s' theme) k = some rec' ∧
      rec.biggest_win ≤ rec'.biggest_win ∧ rec.lowest_loss ≤ rec'.lowest_loss := by
  rcases hwo : lookupKey (load_ratings s theme) w with _ | wrec
  · simp [update_ratings, hwo] at h
  rcases hlo : lookupKey (load_ratings s theme) l with _ | lrec
  · simp [update_ratings, hwo, hlo] at h
  simp only [update_ratings, hwo, hlo, Option.some.injEq] at h
  rw [← h, load_save_ratings]
  apply exists_mono_modify
  · exact fun r => condUpdate_ll_mono _ r
  apply exists_mono_modify
  · exact fun r => condUpdate_bw_mono _ r
  apply exists_mono_modify
  · exact fun r => ⟨le_refl _, le_refl _⟩
  apply exists_mono_modify
  · exact fun r => ⟨le_refl _, le_refl _⟩
  apply exists_mono_modify
  · exact fun r => ⟨le_refl _, le_refl _⟩
  apply exists_mono_modify
  · exact fun r => ⟨le_refl _, le_refl _⟩
  apply exists_mono_modify
  · exact fun r => ⟨le_refl _, le_refl _⟩
  apply exists_mono_modify
  · exact fun r => ⟨le_refl _, le_refl _⟩
  exact ⟨rec, hk, le_refl _, le_refl _⟩

/-- C7: across any sequence of recorded outcomes, no `update_ratings`
call ever decreases an item's `biggest_win` or `lowest_loss`: both fields
are monotonically non-decreasing. -/
theorem extremes_monotone (theme : String) (outcomes : List (String × String))
    (s s' : Store) (h : run_outcomes theme s outcomes = some s')
    (k : String) (rec : RatingRecord)
    (hk : lookupKey (load_ratings s theme) k = some rec) :
    ∃ rec', lookupKey (load_ratings s' theme) k = some rec' ∧
      rec.biggest_win ≤ rec'.biggest_win ∧ rec.lowest_loss ≤ rec'.lowest_loss := by
  induction outcomes generalizing s rec with
  | nil =>
    simp only [run_outcomes, Option.some.injEq] at h
    rw [← h]
    exact ⟨rec, hk, le_refl _, le_refl _⟩
  | cons wl rest ih =>
    obtain ⟨w, l⟩ := wl
    rcases hu : update_ratings s theme w l with _ | s1
    · simp [run_outcomes, hu] at h
    · simp only [run_outcomes, hu] at h
      obtain ⟨rec1, hrec1, hb1, hl1⟩ := update_ratings_mono s theme w l s1 hu k rec hk
      obtain ⟨rec', hrec', hb', hl'⟩ := ih s1 h rec1 hrec1
      exact ⟨rec', hrec', le_trans hb1 hb', le_trans hl1 hl'⟩

/-- Witness for C7: one concrete outcome `X` beats `Y` from `demoStore`;
the record of `X` is still there and both extreme fields did not
decrease. -/
theorem extremes_monotone_witness :
    ∃ rec' : RatingRecord,
      lookupKey (load_ratings (save_ratings demoStore "t" demoTable) "t") "X" = some rec' ∧
      (freshRecord "d").biggest_win ≤ rec'.biggest_win ∧
      (freshRecord "d").lowest_loss ≤ rec'.lowest_loss :=
  extremes_monotone "t" [("X", "Y")] demoStore (save_ratings demoStore "t" demoTable)
    (by simp [run_outcomes, update_demoStore]) "X" (freshRecord "d")
    (by simp [demoStore, load_ratings, lookupKey])

/-! ## C10: `plays = wins + losses` -/

/-- C10: every fresh record satisfies `plays = wins + losses`, and the
invariant is preserved across every table by `initialize_ratings` and by
every successful `update_ratings` on two distinct items (the winner gains
one play and one win, the loser one play and one loss). -/
theorem plays_eq_wins_add_losses :
    (∀ now, (freshRecord now).plays = (freshRecord now).wins + (freshRecord now).losses) ∧
    (∀ s theme items now, playsInvariant (load_ratings s theme) →
      playsInvariant (initialize_ratings s theme items now).2) ∧
    (∀ s theme w l s', w ≠ l → update_ratings s theme w l = some s' →
      playsInvariant (load_ratings s theme) → playsInvariant (load_ratings s' theme)) := by
  refine ⟨fun _ => rfl, ?_, ?_⟩
  · intro s theme items now hinv k rec hrec
    have h2 : (initialize_ratings s theme items now).2 =
        (items.foldl (initStep now) (load_ratings s theme, false)).1 := rfl
    rw [h2, initLoop_lookup] at hrec
    by_cases h : (lookupKey (load_ratings s theme) k).isSome
    · rw [if_pos h] at hrec
      exact hinv k rec hrec
    · rw [if_neg h] at hrec
      by_cases hk : k ∈ items
      · rw [if_pos hk] at hrec
        cases hrec
        rfl
      · rw [if_neg hk] at hrec
        cases hrec
  · intro s theme w l s' hne hup hinv
    rcases hwo : lookupKey (load_ratings s theme) w with _ | wrec
    · simp [update_ratings, hwo] at hup
    rcases hlo : lookupKey (load_ratings s theme) l with _ | lrec
    · simp [update_ratings, hwo, hlo] at hup
    obtain ⟨t', heq, hw', hl', hother⟩ := update_ratings_eq s theme w l wrec lrec hwo hlo hne
    rw [hup] at heq
    have hs' : s' = save_ratings s theme t' := Option.some.inj heq
    subst hs'
    rw [load_save_ratings]
    intro k rec hrec
    by_cases hkw : k = w
    · subst hkw
      rw [hw'] at hrec
      cases hrec
      have hi := hinv k wrec hwo
      simp only [winnerUpdated]
      omega
    · by_cases hkl : k = l
      · subst hkl
        rw [hl'] at hrec
        cases hrec
        have hi := hinv k lrec hlo
        simp only [loserUpdated]
        omega
      · rw [hother k hkw hkl] at hrec
        exact hinv k rec hrec

/-! ## C6: the ranking order -/

/-- C6: `view_rankings` sorts the `(item, rating)` pairs descending by
rating with ties kept in original item-list order (a stable sort over the
decreasing-rating relation); an item with no rating record enters the
sort with the synthetic rating `1000`, and that substitution is not
persisted (`view_rankings_io` returns the store unchanged — the function
only loads); a theme with zero items yields the empty sequence. -/
theorem ranking_order_spec :
    (∀ ratings : RatingsTable, view_rankings [] ratings = []) ∧
    (∀ items ratings, List.Perm (sorted_items items ratings) (ratedItems items ratings)) ∧
    (∀ items ratings item, item ∈ items → lookupKey ratings item = none →
      (item, (1000 : ℝ)) ∈ sorted_items items ratings) ∧
    (∀ items ratings, (sorted_items items ratings).Pairwise (fun a b => b.2 ≤ a.2)) ∧
    (∀ items ratings a b, List.Sublist [a, b] (ratedItems items ratings) → b.2 ≤ a.2 →
      List.Sublist [a, b] (sorted_items items ratings)) ∧
    (∀ s theme, (view_rankings_io s theme).1 = s) := by
  refine ⟨?_, ?_, ?_, ?_, ?_, ?_⟩
  · intro ratings
    rfl
  · intro items ratings
    exact List.perm_insertionSort rankGE _
  · intro items ratings item hmem hnone
    rw [sorted_items, List.mem_insertionSort]
    rw [ratedItems, List.mem_map]
    exact ⟨item, hmem, by rw [hnone]⟩
  · intro items ratings
    exact List.sorted_insertionSort rankGE _
  · intro items ratings a b hsub hle
    exact List.pair_sublist_insertionSort hle hsub
  · intro s theme
    rfl

/-! ## C5: the dash / intensity scale -/

theorem head_max_of_sorted (first : String × ℝ) (rest : List (String × ℝ))
    (hs : List.Sorted rankGE (first :: rest)) :
    ∀ e ∈ first :: rest, e.2 ≤ first.2 := by
  intro e he
  rcases List.mem_cons.mp he with rfl | he
  · exact le_refl _
  · exact (List.sorted_cons.mp hs).1 e he

theorem getLastD_min_of_sorted :
    ∀ (rest : List (String × ℝ)) (first : String × ℝ),
      List.Sorted rankGE (first :: rest) →
      ∀ e ∈ first :: rest, (rest.getLastD first).2 ≤ e.2 := by
  intro rest
  induction rest with
  | nil =>
    intro first _ e he
    rcases List.mem_cons.mp he with rfl | he
    · exact le_refl _
    · cases he
  | cons b l ih =>
    intro first hs e he
    have hs' : List.Sorted rankGE (b :: l) := (List.sorted_cons.mp hs).2
    have hfb : b.2 ≤ first.2 :=
      (List.sorted_cons.mp hs).1 b (List.mem_cons_self b l)
    rw [List.getLastD_cons]
    rcases List.mem_cons.mp he with rfl | he
    · exact le_trans (ih b hs' b (List.mem_cons_self b l)) hfb
    · exact ih b hs' e he

theorem floor_fifty : ⌊(50 : ℝ)⌋ = 50 := by
  rw [show (50 : ℝ) = ((50 : ℤ) : ℝ) by norm_num]
  exact Int.floor_intCast 50

theorem floor_example_mid : ⌊(1 + 49 * ((1000 : ℝ) - 800) / 400 : ℝ)⌋ = 25 := by
  have h : (1 + 49 * ((1000 : ℝ) - 800) / 400 : ℝ) = 51 / 2 := by norm_num
  rw [h, Int.floor_eq_iff]
  norm_num

/-- The spec's worked ranking example: `A`, `B`, `C` rated 1200, 1000,
800 (the other record fields are irrelevant to the view). -/
def exampleTable : RatingsTable :=
  [("A", { freshRecord "d" with rating := 1200 }),
   ("B", { freshRecord "d" with rating := 1000 }),
   ("C", { freshRecord "d" with rating := 800 })]

/-- C5: when all sorted entries share one rating, every dash count is `1`
(the code substitutes `1` for the zero range); otherwise every displayed
dash count equals `⌊1 + 49 * (rating - minRating) / (maxRating -
minRating)⌋`, an integer in `[1, 50]`, with the first (highest-rated)
entry at `50` and the last (lowest-rated) at `1`.  On the worked example
`{A: 1200, B: 1000, C: 800}` the order is `A, B, C` with dash counts
`50`, `25 = ⌊25.5⌋` and `1`. -/
theorem dash_scale_spec :
    (∀ items ratings first rest, sorted_items items ratings = first :: rest →
      ((∀ e ∈ first :: rest, e.2 = first.2) →
        ∀ x ∈ view_rankings items ratings, x.2.2 = 1) ∧
      (first.2 ≠ (rest.getLastD first).2 →
        (∀ x ∈ view_rankings items ratings,
          x.2.2 = ⌊1 + 49 * (x.2.1 - (rest.getLastD first).2) /
            (first.2 - (rest.getLastD first).2)⌋ ∧
          1 ≤ x.2.2 ∧ x.2.2 ≤ 50) ∧
        (view_rankings items ratings).head?.map (fun x => x.2.2) = some 50 ∧
        (view_rankings items ratings).getLast?.map (fun x => x.2.2) = some 1)) ∧
    view_rankings ["A", "B", "C"] exampleTable =
      [("A", 1200, 50), ("B", 1000, 25), ("C", 800, 1)] := by
  constructor
  · intro items ratings first rest hs
    have hsorted : List.Sorted rankGE (first :: rest) := by
      rw [← hs]
      exact List.sorted_insertionSort rankGE _
    have hmax := head_max_of_sorted first rest hsorted
    have hmin := getLastD_min_of_sorted rest first hsorted
    have hview : view_rankings items ratings =
        (first :: rest).map (fun p => (p.1, p.2,
          dash_count (rest.getLastD first).2
            (if first.2 ≠ (rest.getLastD first).2
             then first.2 - (rest.getLastD first).2 else 1) p.2)) := by
      simp only [view_rankings, hs]
    constructor
    · intro hall x hx
      have hmn : (rest.getLastD first).2 = first.2 :=
        hall _ (List.getLastD_mem_cons _ _)
      rw [hview] at hx
      obtain ⟨p, hp, rfl⟩ := List.mem_map.mp hx
      have hpe : p.2 = first.2 := hall p hp
      simp only [hmn, hpe]
      rw [if_neg (by simp), dash_count, if_pos zero_lt_one]
      norm_num [pyInt]
    · intro hne
      have hminmax : (rest.getLastD first).2 ≤ first.2 :=
        hmin first (List.mem_cons_self _ _)
      have hlt : (rest.getLastD first).2 < first.2 :=
        lt_of_le_of_ne hminmax (fun h => hne h.symm)
      have hrangepos : (0 : ℝ) < first.2 - (rest.getLastD first).2 := by linarith
      have hifrng : (if first.2 ≠ (rest.getLastD first).2
          then first.2 - (rest.getLastD first).2 else 1) =
          first.2 - (rest.getLastD first).2 := if_pos hne
      have hdash : ∀ r : ℝ, (rest.getLastD first).2 ≤ r → r ≤ first.2 →
          dash_count (rest.getLastD first).2
            (first.2 - (rest.getLastD first).2) r =
            ⌊1 + 49 * (r - (rest.getLastD first).2) /
              (first.2 - (rest.getLastD first).2)⌋ ∧
          1 ≤ dash_count (rest.getLastD first).2
            (first.2 - (rest.getLastD first).2) r ∧
          dash_count (rest.getLastD first).2
            (first.2 - (rest.getLastD first).2) r ≤ 50 := by
        intro r hrge hrle
        have hterm : (0 : ℝ) ≤ 49 * (r - (rest.getLastD first).2) /
            (first.2 - (rest.getLastD first).2) :=
          div_nonneg (by linarith) hrangepos.le
        have hdiv1 : (r - (rest.getLastD first).2) /
            (first.2 - (rest.getLastD first).2) ≤ 1 := by
          rw [div_le_one hrangepos]
          linarith
        have hub : 1 + 49 * (r - (rest.getLastD first).2) /
            (first.2 - (rest.getLastD first).2) ≤ 50 := by
          rw [mul_div_assoc]
          nlinarith
        rw [dash_count, if_pos hrangepos, pyInt, if_pos (by linarith)]
        refine ⟨rfl, ?_, ?_⟩
        · exact Int.le_floor.mpr (by push_cast; linarith)
        · calc ⌊1 + 49 * (r - (rest.getLastD first).2) /
              (first.2 - (rest.getLastD first).2)⌋ ≤ ⌊(50 : ℝ)⌋ :=
                Int.floor_le_floor hub
            _ = 50 := floor_fifty
      refine ⟨?_, ?_, ?_⟩
      · intro x hx
        rw [hview] at hx
        obtain ⟨p, hp, rfl⟩ := List.mem_map.mp hx
        simp only [hifrng]
        exact hdash p.2 (hmin p hp) (hmax p hp)
      · rw [hview]
        simp only [List.map_cons, List.head?_cons, Option.map_some, hifrng]
        have h50 : dash_count (rest.getLastD first).2
            (first.2 - (rest.getLastD first).2) first.2 = 50 := by
          rw [dash_count, if_pos hrangepos, pyInt,
            if_pos (by
              have hterm : (0 : ℝ) ≤ 49 * (first.2 - (rest.getLastD first).2) /
                  (first.2 - (rest.getLastD first).2) :=
                div_nonneg (by linarith) hrangepos.le
              linarith)]
          rw [mul_div_assoc, div_self (ne_of_gt hrangepos)]
          norm_num [floor_fifty]
        rw [h50]
        rfl
      · rw [hview]
        rw [List.getLast?_map, List.getLast?_cons, ← List.getLastD_eq_getLast?]
        have h1 : dash_count (rest.getLastD first).2
            (first.2 - (rest.getLastD first).2) (rest.getLastD first).2 = 1 := by
          rw [dash_count, if_pos hrangepos, pyInt,
            if_pos (by norm_num [sub_self])]
          norm_num [sub_self, Int.floor_one]
        simp only [Option.map_some', hifrng, h1]
  · have hrated : ratedItems ["A", "B", "C"] exampleTable =
        [("A", (1200 : ℝ)), ("B", (1000 : ℝ)), ("C", (800 : ℝ))] := by
      simp [ratedItems, exampleTable, lookupKey, freshRecord]
    have hsorted_val : sorted_items ["A", "B", "C"] exampleTable =
        [("A", (1200 : ℝ)), ("B", (1000 : ℝ)), ("C", (800 : ℝ))] := by
      rw [sorted_items, hrated]
      norm_num [List.insertionSort, List.orderedInsert, rankGE]
    simp only [view_rankings, hsorted_val]
    norm_num [dash_count, pyInt, List.getLastD, floor_fifty, floor_example_mid]

/-! ## C9: `save_items` / `save_ratings` are not atomic -/

/-- Counterexample for C9: saving `["b"]` over an existing document
`["a"]`, the truncated (zero-length, not a valid document) state is
observable during the save — it is neither the old contents nor the new
document, so the overwrite is not atomic and an interruption between
truncation and write leaves a corrupted file. -/
theorem save_items_not_atomic :
    ¬save_atomic (FileState.written ["a"]) ["b"] := by
  intro h
  rcases h FileState.truncated (by simp [save_items_trace]) with h1 | h1 <;>
    simp at h1

/-- C9 amended: `save_items` (and identically `save_ratings`) overwrites
in place: `open(path, "w")` truncates the file and `json.dump` then
writes the full document.  A completed save therefore ends with exactly
the new document, but the truncated intermediate state is always passed
through, and whenever the old contents were not already a truncated
file, the operation is not atomic: an interruption (or reader) between
the two steps sees a corrupted file that is neither the old nor the new
document. -/
theorem save_items_trace_spec {α : Type} (items : α) :
    (save_items_trace items).getLast? = some (FileState.written items) ∧
    FileState.truncated ∈ save_items_trace items ∧
    (∀ old : FileState α, old ≠ FileState.truncated → ¬save_atomic old items) := by
  refine ⟨rfl, by simp [save_items_trace], ?_⟩
  intro old hold hatomic
  rcases hatomic FileState.truncated (by simp [save_items_trace]) with h1 | h1
  · exact hold h1.symm
  · cases h1

end Elorities
